import Mathlib

/-!
# Verification of the Apprenda+ session engine (`src/App.tsx`)

Shallow embedding of the game-session state machine of the repository:
the `GamePage` component's state (`currentIndex`, `score`, `isDragOver`,
`feedback`, `showHint`, `hintTimeoutRef`, `illustrationUrl`, `isGenerating`)
and its handlers (`handleDrop`, `handleCloseFeedback`, `resetAttemptState`,
the question-change effect, the illustration completion callbacks), plus
the `shuffleArray` Fisher–Yates shuffle and the subject/level filter.

Stateful React code is embedded as explicit state passing: each event
handler is a function `GameState → GameState`, and a session run is a fold
of a `step` function over a list of UI events.  `setTimeout`/`clearTimeout`
are modelled by a list of pending timers (id and delay) plus the component's
`hintTimeoutRef`; a timer firing is an explicit event that is only possible
while the timer is still pending (i.e. scheduled and not cleared).
-/

/-- `Subject` enum of `types.ts` (`Math = 'Matemática'`, `Portuguese = 'Português'`).
The string payloads are irrelevant to control flow; the enum is modelled
as a two-constructor inductive. -/
inductive Subject where
  | math
  | portuguese
deriving DecidableEq

/-- `Level` enum of `types.ts` (`One = 1`, `Two = 2`). -/
inductive Level where
  | one
  | two
deriving DecidableEq

/-- The `Option` interface of `types.ts` (a draggable answer option).
Named `Opt` because `Option` is taken by Lean's core type. -/
structure Opt where
  value : String
  color : String
  illustration : Option String
  alt : Option String
deriving DecidableEq

/-- The `illustration` field of a `Question` (`src` + `alt`). -/
structure Illustration where
  src : String
  alt : String
deriving DecidableEq

/-- The `type` of `celebrationMedia`: `'video' | 'gif'`. -/
inductive MediaKind where
  | video
  | gif
deriving DecidableEq

/-- The `celebrationMedia` field of a `Question`. -/
structure CelebrationMedia where
  kind : MediaKind
  src : String
  alt : String
deriving DecidableEq

/-- The `Question` interface of `types.ts`. -/
structure Question where
  id : String
  subject : Subject
  level : Level
  prompt : String
  illustration : Illustration
  options : List Opt
  correctAnswer : String
  hint : String
  celebrationMedia : CelebrationMedia
deriving DecidableEq

/-- The `Settings` interface of `types.ts`: three independent booleans. -/
structure Settings where
  isTtsEnabled : Bool
  isHighContrast : Bool
  reduceMotion : Bool
deriving DecidableEq

/-! ## Shuffle (`shuffleArray`, App.tsx lines 248–255)

The source is an in-place Fisher–Yates loop:
`for (let i = n-1; i > 0; i--) { const j = Math.floor(Math.random()*(i+1)); swap(a[i], a[j]); }`.
Randomness is modelled by an arbitrary function `rand : ℕ → ℕ`; at loop
index `i` the source draws `j = Math.floor(Math.random()*(i+1))`, which is
an arbitrary value in `[0, i]`, modelled as `rand i % (i+1)`. -/

/-- One `[a[i], a[j]] = [a[j], a[i]]` destructuring swap.  In the source the
indices are always in bounds (`j ≤ i < length`); the `match` guard makes the
function total without changing in-bounds behaviour. -/
def swapList {α : Type} (l : List α) (i j : Nat) : List α :=
  match l[i]?, l[j]? with
  | some a, some b => (l.set i b).set j a
  | _, _ => l

/-- The Fisher–Yates loop, recursing on the loop counter `i`
(the body runs for `i = n-1, …, 1` and the loop stops at `i = 0`). -/
def fisherYatesAux {α : Type} (rand : Nat → Nat) : Nat → List α → List α
  | 0, l => l
  | i + 1, l => fisherYatesAux rand i (swapList l (i + 1) (rand (i + 1) % (i + 2)))

/-- `shuffleArray` (App.tsx 248–255): copy the array and run the loop from
`i = length - 1` down.  The copy (`[...array]`) is implicit: the embedding
is functional. -/
def shuffleArray {α : Type} (rand : Nat → Nat) (l : List α) : List α :=
  fisherYatesAux rand (l.length - 1) l

/-- `ALL_QUESTIONS.filter(q => q.subject === subject && q.level === level)`
(App.tsx line 259). -/
def filterQuestions (all : List Question) (subject : Subject) (level : Level) : List Question :=
  all.filter (fun q => q.subject == subject && q.level == level)

/-- The `questions` memo of `GamePage` (App.tsx 258–261): filter then shuffle. -/
def sessionQuestions (rand : Nat → Nat) (all : List Question)
    (subject : Subject) (level : Level) : List Question :=
  shuffleArray rand (filterQuestions all subject level)

/-! ## The `GamePage` session state machine (App.tsx 257–446)

Component state hooks (App.tsx 263–272) plus two observables of session
completion: `done` models the unmount caused by `navigateHome()` in
`handleCloseFeedback`, and `reported` records the score printed by the
final `alert` (the "final score reported to the caller").

`setTimeout` is modelled by `pendingTimers` (the scheduled, not yet fired,
not yet cleared timeouts, with their ids and delays in ms), `nextTimerId`
(fresh-id supply), and `hintTimeoutRef` (the component's ref, which the
source never nulls out after `clearTimeout`).  `illRequests` counts the
calls to `generateIllustration()` issued by the question-change effect. -/

/-- A scheduled `setTimeout`: its id and its delay in milliseconds. -/
structure PendingTimer where
  tid : Nat
  delayMs : Nat
deriving DecidableEq

/-- The `feedback` state value `{correct: boolean, show: boolean}`
(App.tsx line 266).  The `show` field is named `shown` (`show` is a Lean
keyword). -/
structure Feedback where
  correct : Bool
  shown : Bool
deriving DecidableEq

/-- The mutable state of one `GamePage` mount (one session). -/
structure GameState where
  currentIndex : Nat
  score : Nat
  isDragOver : Bool
  feedback : Option Feedback
  showHint : Bool
  hintTimeoutRef : Option Nat
  pendingTimers : List PendingTimer
  nextTimerId : Nat
  illustrationUrl : Option String
  isGenerating : Bool
  illRequests : Nat
  done : Bool
  reported : Option Nat
deriving DecidableEq

/-- The `useState` initial values of `GamePage` (App.tsx 263–272). -/
def initState : GameState :=
  { currentIndex := 0
    score := 0
    isDragOver := false
    feedback := none
    showHint := false
    hintTimeoutRef := none
    pendingTimers := []
    nextTimerId := 0
    illustrationUrl := none
    isGenerating := false
    illRequests := 0
    done := false
    reported := none }

/-- `currentQuestion = questions[currentIndex]` (App.tsx line 275); an
out-of-range index yields `undefined`, modelled by `Option`. -/
def currentQuestion (qs : List Question) (s : GameState) : Option Question :=
  qs[s.currentIndex]?

/-- `resetAttemptState` (App.tsx 346–353): clears drag-over, feedback and
hint, and `clearTimeout`s the ref'd timer.  The source does not null the
ref itself, so `hintTimeoutRef` is kept; clearing removes the timer with
that id from the pending set. -/
def resetAttemptState (s : GameState) : GameState :=
  { s with
    isDragOver := false
    feedback := none
    showHint := false
    pendingTimers :=
      match s.hintTimeoutRef with
      | some id => s.pendingTimers.filter (fun t => t.tid != id)
      | none => s.pendingTimers }

/-- `handleDrop` (App.tsx 359–373): compare the dropped value with the
current question's `correctAnswer` by exact string equality; on a match
increment the score and show correct feedback; otherwise show incorrect
feedback and schedule a 1000 ms hint timer, storing its id in the ref.
The `none` branch is dead in the UI: with no current question the
component returns the fallback view (line 387) and renders no drop zone. -/
def handleDrop (qs : List Question) (v : String) (s : GameState) : GameState :=
  match currentQuestion qs s with
  | none => s
  | some q =>
    if v = q.correctAnswer then
      { s with score := s.score + 1, feedback := some ⟨true, true⟩ }
    else
      { s with
        feedback := some ⟨false, true⟩
        hintTimeoutRef := some s.nextTimerId
        pendingTimers := s.pendingTimers ++ [⟨s.nextTimerId, 1000⟩]
        nextTimerId := s.nextTimerId + 1 }

/-- `handleCloseFeedback` (App.tsx 375–385): on correct feedback either
advance the index (non-last question) or report `score + 1` via `alert`
and navigate home (session over); in every case (`feedback?.correct`
falsy included) finish with `resetAttemptState()`. -/
def handleCloseFeedback (qs : List Question) (s : GameState) : GameState :=
  resetAttemptState <|
    match s.feedback with
    | some f =>
      if f.correct then
        if s.currentIndex < qs.length - 1 then
          { s with currentIndex := s.currentIndex + 1 }
        else
          { s with done := true, reported := some (s.score + 1) }
      else s
    | none => s

/-- The question-change effect (App.tsx 282–344), restricted to its state
updates: with a current question, under reduced motion set the default
static illustration and return (no request); otherwise begin
`generateIllustration()` — set `isGenerating`, clear the URL, and issue
one provider request (counted by `illRequests`). -/
def startQuestionEffect (settings : Settings) (qs : List Question) (s : GameState) : GameState :=
  match currentQuestion qs s with
  | none => s
  | some q =>
    if settings.reduceMotion then
      { s with illustrationUrl := some q.illustration.src }
    else
      { s with
        isGenerating := true
        illustrationUrl := none
        illRequests := s.illRequests + 1 }

/-- Success path of `generateIllustration` (App.tsx 324–329, 335–339):
store the data URL, then the `finally` block clears `isGenerating`. -/
def illSuccessUpdate (bytes : String) (s : GameState) : GameState :=
  { s with
    illustrationUrl := some ("data:image/png;base64," ++ bytes)
    isGenerating := false }

/-- Failure path of `generateIllustration` (App.tsx 330–339): the `catch`
block logs and falls back to the originating question's default static
illustration; the `finally` block clears `isGenerating`.  `q` is the
question captured by the closure that issued the request. -/
def illFailureUpdate (q : Question) (s : GameState) : GameState :=
  { s with
    illustrationUrl := some q.illustration.src
    isGenerating := false }

/-- The UI events a mounted `GamePage` can receive. -/
inductive Event where
  | drop (value : String)
  | closeFeedback
  | hintTimerFire (id : Nat)
  | dragEnter
  | dragLeave
  | startQuestion
  | illSuccess (bytes : String)
  | illFailure (q : Question)
deriving DecidableEq

/-- One event-handler invocation.  `hintTimerFire` is the body of the
scheduled callback `() => setShowHint(true)` (App.tsx 371): the fired
timer leaves the pending set and the hint becomes visible.  `dragEnter`
and `dragLeave` are the handlers of App.tsx 421–422. -/
def step (settings : Settings) (qs : List Question) (s : GameState) : Event → GameState
  | .drop v => handleDrop qs v s
  | .closeFeedback => handleCloseFeedback qs s
  | .hintTimerFire id =>
      { s with
        pendingTimers := s.pendingTimers.filter (fun t => t.tid != id)
        showHint := true }
  | .dragEnter => { s with isDragOver := true }
  | .dragLeave => { s with isDragOver := false }
  | .startQuestion => startQuestionEffect settings qs s
  | .illSuccess bytes => illSuccessUpdate bytes s
  | .illFailure q => illFailureUpdate q s

/-- Which events the running program can actually deliver in a state.
All require the component to still be mounted (`done = false`, since
`navigateHome()` unmounts `GamePage`).  A drop can only land while the
`FeedbackModal` is closed — when open it is a full-screen fixed overlay
(App.tsx 129) that intercepts pointer events — and only on a rendered
drop zone, which requires a current question (App.tsx 387–389).
`closeFeedback` is only reachable from the modal's button, so feedback
must be set and shown.  A hint timer can only fire while it is still
pending (a cleared `setTimeout` never runs).  `startQuestion` is the
effect guarded by `if (currentQuestion)` (App.tsx 283).  Provider
completions can arrive at any time while the component is mounted. -/
def uiValid (qs : List Question) (s : GameState) : Event → Prop
  | .drop _ => s.done = false ∧ s.feedback = none ∧ s.currentIndex < qs.length
  | .closeFeedback => s.done = false ∧ ∃ f, s.feedback = some f ∧ f.shown = true
  | .hintTimerFire id => s.done = false ∧ ∃ t, t ∈ s.pendingTimers ∧ t.tid = id
  | .dragEnter => s.done = false
  | .dragLeave => s.done = false
  | .startQuestion => s.done = false ∧ s.currentIndex < qs.length
  | .illSuccess _ => s.done = false
  | .illFailure _ => s.done = false

/-- States a session (one mount of `GamePage` with a fixed shuffled
question list and fixed settings) can reach from its initial state
through UI-deliverable events. -/
inductive Reach (settings : Settings) (qs : List Question) : GameState → Prop where
  | init : Reach settings qs initState
  | next : ∀ s e, Reach settings qs s → uiValid qs s e →
      Reach settings qs (step settings qs s e)

/-- A whole interaction run: fold `step` over an event list. -/
def run (settings : Settings) (qs : List Question) (s : GameState)
    (es : List Event) : GameState :=
  es.foldl (step settings qs) s

/-- The score credit carried by the feedback state: `1` exactly when a
correct answer is awaiting acknowledgement. -/
def bonus : Option Feedback → Nat
  | some f => if f.correct then 1 else 0
  | none => 0

/-! ## Rendering observables and sample data -/

/-- What `GamePage` returns (App.tsx 387–446): with no current question the
early-return fallback view (the distinct "no questions to play"
presentation, App.tsx 387–389), otherwise the game screen for the current
question. -/
inductive GameView where
  | fallback
  | playing (q : Question)
deriving DecidableEq

/-- The render decision of `GamePage`: `if (!currentQuestion) return <div>…` -/
def render (qs : List Question) (s : GameState) : GameView :=
  match currentQuestion qs s with
  | none => GameView.fallback
  | some q => GameView.playing q

/-- The illustration actually displayed (App.tsx 413):
`illustrationUrl || currentQuestion.illustration.src`. -/
def displayedIllustration (s : GameState) (q : Question) : String :=
  s.illustrationUrl.getD q.illustration.src

/-- A sample Math question (shape of the records in `data.ts`):
correct answer `"4"`. -/
def qMath : Question :=
  { id := "q-m1"
    subject := Subject.math
    level := Level.one
    prompt := "Quanto eh 2 + 2?"
    illustration := ⟨"math-default.png", "quatro objetos"⟩
    options := [⟨"3", "bg-red-500", none, none⟩, ⟨"4", "bg-blue-500", none, none⟩]
    correctAnswer := "4"
    hint := "Conte nos dedos"
    celebrationMedia := ⟨MediaKind.gif, "celebrate.gif", "festa"⟩ }

/-- A sample Portuguese question: correct answer `"cat"`. -/
def qPort : Question :=
  { id := "q-p1"
    subject := Subject.portuguese
    level := Level.one
    prompt := "Qual animal mia?"
    illustration := ⟨"port-default.png", "um gato"⟩
    options := [⟨"cat", "bg-green-500", none, none⟩, ⟨"dog", "bg-yellow-500", none, none⟩]
    correctAnswer := "cat"
    hint := "Pense no bichano"
    celebrationMedia := ⟨MediaKind.video, "celebrate.mp4", "festa"⟩ }

/-- The `useLocalStorage` default settings (App.tsx 454–458): all false. -/
def defaultSettings : Settings := ⟨false, false, false⟩

/-- Settings with the reduced-motion accessibility flag enabled. -/
def reducedMotionSettings : Settings := ⟨false, false, true⟩

/-! ## Reachability invariant -/

/-- The session invariant.  `score_eq` is the exact accounting of the
score: every acknowledged question contributed exactly one point, plus one
pending point exactly while a correct answer awaits acknowledgement — this
is what makes "at most once per question" hold.  `timers` says at most one
hint timer is ever pending, it is the one held by `hintTimeoutRef`, and it
only exists while incorrect feedback is displayed. -/
structure SessionInv (qs : List Question) (s : GameState) : Prop where
  score_eq : s.done = false → s.score = s.currentIndex + bonus s.feedback
  idx_lt : s.done = false → qs ≠ [] → s.currentIndex < qs.length
  empty_frozen : qs = [] →
    s.currentIndex = 0 ∧ s.score = 0 ∧ s.feedback = none ∧ s.done = false
  done_score : s.done = true → s.score = qs.length ∧ s.reported = some (qs.length + 1)
  timers : s.pendingTimers = [] ∨
    ∃ id, s.hintTimeoutRef = some id ∧ s.pendingTimers = [⟨id, 1000⟩] ∧
      s.feedback = some ⟨false, true⟩
  fb_shown : ∀ f, s.feedback = some f → f.shown = true

/-- Setting index `n` of a list changes the multiset of elements by removing
the old element at `n` and adding the new one (stated additively on counts). -/
theorem count_set_add {α : Type} [DecidableEq α] (l : List α) :
    ∀ (n : Nat) (b c : α), l[n]? = some c →
      ∀ x, (l.set n b).count x + List.count x [c] = l.count x + List.count x [b] := by
  induction l with
  | nil => intro n b c h x; simp at h
  | cons hd tl ih =>
    intro n b c h x
    cases n with
    | zero =>
      simp only [List.getElem?_cons_zero, Option.some_inj] at h
      subst h
      simp [List.count_cons, List.count_nil]
      omega
    | succ n =>
      simp only [List.getElem?_cons_succ] at h
      have := ih n b c h x
      simp only [List.set_cons_succ, List.count_cons, List.count_nil] at this ⊢
      omega

/-- A destructuring swap of two (in- or out-of-bounds) positions is a
permutation of the original list. -/
theorem swapList_perm {α : Type} [DecidableEq α] (l : List α) (i j : Nat) :
    (swapList l i j).Perm l := by
  unfold swapList
  cases hi : l[i]? with
  | none => exact List.Perm.refl l
  | some a =>
    cases hj : l[j]? with
    | none => exact List.Perm.refl l
    | some b =>
      have hjlen : j < l.length := by
        by_contra hlen
        rw [List.getElem?_eq_none (by omega)] at hj
        exact Option.noConfusion hj
      have hb : (l.set i b)[j]? = some b := by
        by_cases hij : i = j
        · subst hij
          exact List.getElem?_set_self (by simpa using hjlen)
        · rw [List.getElem?_set_ne hij]; exact hj
      have h1 := count_set_add l i b a hi
      have h2 := count_set_add (l.set i b) j a b hb
      show ((l.set i b).set j a).Perm l
      rw [List.perm_iff_count]
      intro x
      have h1x := h1 x
      have h2x := h2 x
      omega

/-- The Fisher–Yates loop permutes its input for every loop bound. -/
theorem fisherYatesAux_perm {α : Type} [DecidableEq α] (rand : Nat → Nat) :
    ∀ (i : Nat) (l : List α), (fisherYatesAux rand i l).Perm l := by
  intro i
  induction i with
  | zero => intro l; exact List.Perm.refl l
  | succ i ih =>
    intro l
    exact (ih _).trans (swapList_perm l (i + 1) (rand (i + 1) % (i + 2)))

/-- C6: For every input list, the session's shuffled question list is a
permutation of the filtered question set: same length and same multiset of
question records (hence identifiers) as the input to the shuffle. -/
theorem sessionQuestions_perm (rand : Nat → Nat) (all : List Question)
    (subject : Subject) (level : Level) :
    (sessionQuestions rand all subject level).Perm (filterQuestions all subject level) ∧
    (sessionQuestions rand all subject level).length
      = (filterQuestions all subject level).length ∧
    (↑(sessionQuestions rand all subject level) : Multiset Question)
      = ↑(filterQuestions all subject level) := by
  have hp : (sessionQuestions rand all subject level).Perm
      (filterQuestions all subject level) :=
    fisherYatesAux_perm rand _ _
  exact ⟨hp, hp.length_eq, Multiset.coe_eq_coe.mpr hp⟩

/-- Steps that leave index, score, feedback, completion and timers
untouched preserve the invariant. -/
theorem SessionInv.of_frame {qs : List Question} {s s' : GameState} (h : SessionInv qs s)
    (hidx : s'.currentIndex = s.currentIndex) (hsc : s'.score = s.score)
    (hfb : s'.feedback = s.feedback) (hdone : s'.done = s.done)
    (hrep : s'.reported = s.reported) (hpend : s'.pendingTimers = s.pendingTimers)
    (href : s'.hintTimeoutRef = s.hintTimeoutRef) : SessionInv qs s' := by
  constructor
  · rw [hdone, hsc, hidx, hfb]; exact h.score_eq
  · rw [hdone, hidx]; exact h.idx_lt
  · rw [hidx, hsc, hfb, hdone]; exact h.empty_frozen
  · rw [hdone, hsc, hrep]; exact h.done_score
  · rw [hpend, href, hfb]; exact h.timers
  · rw [hfb]; exact h.fb_shown

/-- `resetAttemptState` leaves no pending timer when none was pending. -/
theorem resetAttemptState_pendingTimers_nil {s : GameState}
    (h : s.pendingTimers = []) : (resetAttemptState s).pendingTimers = [] := by
  unfold resetAttemptState
  cases href : s.hintTimeoutRef <;> simp [h]

/-- Every reachable session state satisfies the invariant. -/
theorem reach_inv {settings : Settings} {qs : List Question} {s : GameState}
    (h : Reach settings qs s) : SessionInv qs s := by
  induction h with
  | init =>
    constructor
    · intro _; rfl
    · intro _ hne
      simpa [initState] using List.length_pos.mpr hne
    · intro _; simp [initState]
    · intro hd; simp [initState] at hd
    · exact Or.inl rfl
    · intro f hf; simp [initState] at hf
  | next s e hr hv ih =>
    cases e with
    | drop v =>
      obtain ⟨hdone, hfb, hlt⟩ := hv
      have hq : currentQuestion qs s = some (qs[s.currentIndex]) := by
        simp [currentQuestion, List.getElem?_eq_getElem hlt]
      have hpend : s.pendingTimers = [] := by
        rcases ih.timers with h0 | ⟨id, _, _, hfb2⟩
        · exact h0
        · rw [hfb] at hfb2; exact Option.noConfusion hfb2
      have hscore : s.score = s.currentIndex := by
        have := ih.score_eq hdone
        rw [hfb] at this
        simpa [bonus] using this
      by_cases hcorr : v = (qs[s.currentIndex]).correctAnswer
      · have hstep : step settings qs s (.drop v)
            = { s with score := s.score + 1, feedback := some ⟨true, true⟩ } := by
          simp [step, handleDrop, hq, hcorr]
        rw [hstep]
        constructor
        · intro _; simp [bonus]; omega
        · intro _ _; exact hlt
        · intro hemp; exact absurd hlt (by simp [hemp])
        · intro hd; simp [hdone] at hd
        · exact Or.inl hpend
        · intro f hf; injection hf with h; rw [← h]
      · have hstep : step settings qs s (.drop v)
            = { s with
                feedback := some ⟨false, true⟩
                hintTimeoutRef := some s.nextTimerId
                pendingTimers := s.pendingTimers ++ [⟨s.nextTimerId, 1000⟩]
                nextTimerId := s.nextTimerId + 1 } := by
          simp [step, handleDrop, hq, hcorr]
        rw [hstep]
        constructor
        · intro _; simp [bonus]; omega
        · intro _ _; exact hlt
        · intro hemp; exact absurd hlt (by simp [hemp])
        · intro hd; simp [hdone] at hd
        · exact Or.inr ⟨s.nextTimerId, rfl, by simp [hpend], rfl⟩
        · intro f hf; injection hf with h; rw [← h]
    | closeFeedback =>
      obtain ⟨hdone, f, hfb, hshown⟩ := hv
      have hne : qs ≠ [] := by
        intro hemp
        have := (ih.empty_frozen hemp).2.2.1
        rw [hfb] at this
        exact Option.noConfusion this
      have hlt : s.currentIndex < qs.length := ih.idx_lt hdone hne
      cases hcorr : f.correct with
      | true =>
        have hscore : s.score = s.currentIndex + 1 := by
          have := ih.score_eq hdone
          rw [hfb] at this
          simpa [bonus, hcorr] using this
        have hpend0 : s.pendingTimers = [] := by
          rcases ih.timers with h0 | ⟨id, _, _, hfb2⟩
          · exact h0
          · rw [hfb] at hfb2
            injection hfb2 with h
            rw [h] at hcorr
            simp at hcorr
        by_cases hlt2 : s.currentIndex < qs.length - 1
        · have hstep : step settings qs s .closeFeedback
              = resetAttemptState { s with currentIndex := s.currentIndex + 1 } := by
            simp [step, handleCloseFeedback, hfb, hcorr, hlt2]
          rw [hstep]
          constructor
          · intro _; simp [resetAttemptState, bonus]; omega
          · intro _ _; simp [resetAttemptState]; omega
          · intro hemp; exact absurd hemp hne
          · intro hd; simp [resetAttemptState, hdone] at hd
          · exact Or.inl (resetAttemptState_pendingTimers_nil hpend0)
          · intro f' hf'; simp [resetAttemptState] at hf'
        · have hstep : step settings qs s .closeFeedback
              = resetAttemptState
                  { s with done := true, reported := some (s.score + 1) } := by
            simp [step, handleCloseFeedback, hfb, hcorr, hlt2]
          rw [hstep]
          have hfull : s.score = qs.length := by omega
          constructor
          · intro hd; simp [resetAttemptState] at hd
          · intro hd; simp [resetAttemptState] at hd
          · intro hemp; exact absurd hemp hne
          · intro _; simp [resetAttemptState, hfull]
          · exact Or.inl (resetAttemptState_pendingTimers_nil hpend0)
          · intro f' hf'; simp [resetAttemptState] at hf'
      | false =>
        have hscore : s.score = s.currentIndex := by
          have := ih.score_eq hdone
          rw [hfb] at this
          simpa [bonus, hcorr] using this
        have hstep : step settings qs s .closeFeedback = resetAttemptState s := by
          simp [step, handleCloseFeedback, hfb, hcorr]
        rw [hstep]
        constructor
        · intro _; simp [resetAttemptState, bonus]; omega
        · intro _ _; simp [resetAttemptState]; omega
        · intro hemp; exact absurd hemp hne
        · intro hd; simp [resetAttemptState, hdone] at hd
        · rcases ih.timers with h0 | ⟨id, href, hp, _⟩
          · exact Or.inl (resetAttemptState_pendingTimers_nil h0)
          · left
            simp [resetAttemptState, href, hp]
        · intro f' hf'; simp [resetAttemptState] at hf'
    | hintTimerFire id =>
      obtain ⟨hdone, t, htmem, htid⟩ := hv
      constructor
      · exact ih.score_eq
      · exact ih.idx_lt
      · intro hemp; exact ih.empty_frozen hemp
      · exact ih.done_score
      · rcases ih.timers with h0 | ⟨id0, href, hp, hfb2⟩
        · left; simp [step, h0]
        · have hid : id0 = id := by
            rw [hp] at htmem
            simp at htmem
            rw [htmem] at htid
            exact htid
          left
          simp [step, hp, hid]
      · exact ih.fb_shown
    | dragEnter => exact SessionInv.of_frame ih rfl rfl rfl rfl rfl rfl rfl
    | dragLeave => exact SessionInv.of_frame ih rfl rfl rfl rfl rfl rfl rfl
    | startQuestion =>
      obtain ⟨hdone, hlt⟩ := hv
      have hq : currentQuestion qs s = some (qs[s.currentIndex]) := by
        simp [currentQuestion, List.getElem?_eq_getElem hlt]
      cases hrm : settings.reduceMotion with
      | true =>
        have hstep : step settings qs s .startQuestion
            = { s with illustrationUrl := some (qs[s.currentIndex]).illustration.src } := by
          simp [step, startQuestionEffect, hq, hrm]
        rw [hstep]
        exact SessionInv.of_frame ih rfl rfl rfl rfl rfl rfl rfl
      | false =>
        have hstep : step settings qs s .startQuestion
            = { s with
                isGenerating := true
                illustrationUrl := none
                illRequests := s.illRequests + 1 } := by
          simp [step, startQuestionEffect, hq, hrm]
        rw [hstep]
        exact SessionInv.of_frame ih rfl rfl rfl rfl rfl rfl rfl
    | illSuccess bytes => exact SessionInv.of_frame ih rfl rfl rfl rfl rfl rfl rfl
    | illFailure q => exact SessionInv.of_frame ih rfl rfl rfl rfl rfl rfl rfl

/-! ## Claim theorems -/

/-- C1: In every reachable session state the score satisfies
`0 ≤ score ≤ number of questions` (the score is a natural number that
mirrors the only-incremented JS counter).  At any state where a drop can
land (feedback dismissed, a current question on screen, session not over)
the score equals the number of questions already passed
(`score = currentIndex`, i.e. every earlier question contributed exactly
one point and the current one none yet), and a drop adds exactly `1` when
it is the accepting correct drop and `0` otherwise.  A second accepting
drop on the same question is impossible: the first one sets `feedback`,
the full-screen feedback modal blocks further drops until dismissal, and
dismissing correct feedback advances the index. -/
theorem score_bounds_and_increment (settings : Settings) (qs : List Question)
    (s : GameState) (h : Reach settings qs s) (hdone : s.done = false)
    (v : String) (q : Question) (hfb : s.feedback = none)
    (hq : currentQuestion qs s = some q) :
    0 ≤ s.score ∧ s.score ≤ qs.length ∧ s.score = s.currentIndex ∧
    (step settings qs s (.drop v)).score
      = s.score + (if v = q.correctAnswer then 1 else 0) ∧
    (step settings qs s (.drop v)).score ≤ qs.length := by
  have ih := reach_inv h
  have hlt : s.currentIndex < qs.length := by
    have := hq
    unfold currentQuestion at this
    rw [List.getElem?_eq_some] at this
    exact this.1
  have hscore : s.score = s.currentIndex := by
    have := ih.score_eq hdone
    rw [hfb] at this
    simpa [bonus] using this
  refine ⟨Nat.zero_le _, by omega, hscore, ?_, ?_⟩
  · by_cases hv : v = q.correctAnswer <;> simp [step, handleDrop, hq, hv]
  · by_cases hv : v = q.correctAnswer <;> simp [step, handleDrop, hq, hv] <;> omega

/-- C1 witness: the theorem applied to the initial state of the spec's
two-question session and the accepting drop `"cat"`. -/
theorem score_bounds_and_increment_witness :
    0 ≤ initState.score ∧ initState.score ≤ ([qPort, qMath] : List Question).length ∧
    initState.score = initState.currentIndex ∧
    (step defaultSettings [qPort, qMath] initState (.drop "cat")).score
      = initState.score + (if "cat" = qPort.correctAnswer then 1 else 0) ∧
    (step defaultSettings [qPort, qMath] initState (.drop "cat")).score
      ≤ ([qPort, qMath] : List Question).length :=
  score_bounds_and_increment defaultSettings [qPort, qMath] initState
    Reach.init rfl "cat" qPort rfl rfl

/-- C2: In every reachable state where a drop can be submitted (feedback
dismissed, current question `q` on screen) there is no pending hint timer
(so no previously scheduled timer can survive the drop and go stale);
submitting the correct answer transitions feedback to correct and leaves
no hint timer scheduled, while submitting any other value (including
values matching no option) transitions feedback to incorrect and leaves
exactly one pending hint timer, with a 1000 ms delay. -/
theorem submitDrop_feedback_and_hint (settings : Settings) (qs : List Question)
    (s : GameState) (h : Reach settings qs s) (v : String) (q : Question)
    (hfb : s.feedback = none) (hq : currentQuestion qs s = some q) :
    s.pendingTimers = [] ∧
    (step settings qs s (.drop v)).feedback
      = some ⟨if v = q.correctAnswer then true else false, true⟩ ∧
    (step settings qs s (.drop v)).pendingTimers
      = if v = q.correctAnswer then [] else [⟨s.nextTimerId, 1000⟩] := by
  have ih := reach_inv h
  have hpend : s.pendingTimers = [] := by
    rcases ih.timers with h0 | ⟨id, _, _, hfb2⟩
    · exact h0
    · rw [hfb] at hfb2; exact Option.noConfusion hfb2
  refine ⟨hpend, ?_, ?_⟩ <;>
    by_cases hv : v = q.correctAnswer <;> simp [step, handleDrop, hq, hv, hpend]

/-- C2 witness: the theorem applied to the initial state of the spec's
two-question session and the wrong drop `"dog"`. -/
theorem submitDrop_feedback_and_hint_witness :
    initState.pendingTimers = [] ∧
    (step defaultSettings [qPort, qMath] initState (.drop "dog")).feedback
      = some ⟨if "dog" = qPort.correctAnswer then true else false, true⟩ ∧
    (step defaultSettings [qPort, qMath] initState (.drop "dog")).pendingTimers
      = if "dog" = qPort.correctAnswer then []
        else [⟨initState.nextTimerId, 1000⟩] :=
  submitDrop_feedback_and_hint defaultSettings [qPort, qMath] initState
    Reach.init "dog" qPort rfl rfl

/-- C3: evaluation of the code on the spec's own scenario (session
`[Q_cat, Q_4]`, both questions answered correctly on their first drop,
feedback dismissed each time).  The session completes with accumulated
score 2 — two distinct questions answered correctly — but the final
`alert` reports `score + 1 = 3` out of 2: `handleCloseFeedback` adds 1 to
a score that `handleDrop` already incremented.  The spec requires the
reported final score to equal the number of distinct questions answered
correctly (2/2), so the code over-reports by one on every completed
session. -/
theorem final_alert_overreports :
    (run defaultSettings [qPort, qMath] initState
      [.drop "cat", .closeFeedback, .drop "4", .closeFeedback]).done = true ∧
    (run defaultSettings [qPort, qMath] initState
      [.drop "cat", .closeFeedback, .drop "4", .closeFeedback]).score = 2 ∧
    (run defaultSettings [qPort, qMath] initState
      [.drop "cat", .closeFeedback, .drop "4", .closeFeedback]).reported
      = some 3 := by
  refine ⟨?_, ?_, ?_⟩ <;> rfl

/-- C4: dismissing correct feedback on a non-last question advances the
index by exactly 1 and fully resets the attempt state: drag-over false,
feedback none, hint hidden, no pending hint timer; the session does not
complete and the score is untouched. -/
theorem dismiss_correct_nonlast_advances (settings : Settings)
    (qs : List Question) (s : GameState) (h : Reach settings qs s)
    (hdone : s.done = false) (hfb : s.feedback = some ⟨true, true⟩)
    (hlt2 : s.currentIndex < qs.length - 1) :
    (step settings qs s .closeFeedback).currentIndex = s.currentIndex + 1 ∧
    (step settings qs s .closeFeedback).isDragOver = false ∧
    (step settings qs s .closeFeedback).feedback = none ∧
    (step settings qs s .closeFeedback).showHint = false ∧
    (step settings qs s .closeFeedback).pendingTimers = [] ∧
    (step settings qs s .closeFeedback).done = false ∧
    (step settings qs s .closeFeedback).score = s.score := by
  have ih := reach_inv h
  have hpend : s.pendingTimers = [] := by
    rcases ih.timers with h0 | ⟨id, _, _, hfb2⟩
    · exact h0
    · rw [hfb] at hfb2
      injection hfb2 with hf
      simp at hf
  have hstep : step settings qs s .closeFeedback
      = resetAttemptState { s with currentIndex := s.currentIndex + 1 } := by
    simp [step, handleCloseFeedback, hfb, hlt2]
  rw [hstep]
  exact ⟨rfl, rfl, rfl, rfl, resetAttemptState_pendingTimers_nil hpend, hdone, rfl⟩

/-- C4 witness: after the accepting drop `"cat"` on the first of two
questions, dismissing the correct feedback advances to the second
question with a clean attempt state. -/
theorem dismiss_correct_nonlast_advances_witness :
    (step defaultSettings [qPort, qMath]
      (step defaultSettings [qPort, qMath] initState (.drop "cat"))
      .closeFeedback).currentIndex
      = (step defaultSettings [qPort, qMath] initState (.drop "cat")).currentIndex + 1 ∧
    (step defaultSettings [qPort, qMath]
      (step defaultSettings [qPort, qMath] initState (.drop "cat"))
      .closeFeedback).isDragOver = false ∧
    (step defaultSettings [qPort, qMath]
      (step defaultSettings [qPort, qMath] initState (.drop "cat"))
      .closeFeedback).feedback = none ∧
    (step defaultSettings [qPort, qMath]
      (step defaultSettings [qPort, qMath] initState (.drop "cat"))
      .closeFeedback).showHint = false ∧
    (step defaultSettings [qPort, qMath]
      (step defaultSettings [qPort, qMath] initState (.drop "cat"))
      .closeFeedback).pendingTimers = [] ∧
    (step defaultSettings [qPort, qMath]
      (step defaultSettings [qPort, qMath] initState (.drop "cat"))
      .closeFeedback).done = false ∧
    (step defaultSettings [qPort, qMath]
      (step defaultSettings [qPort, qMath] initState (.drop "cat"))
      .closeFeedback).score
      = (step defaultSettings [qPort, qMath] initState (.drop "cat")).score :=
  dismiss_correct_nonlast_advances defaultSettings [qPort, qMath]
    (step defaultSettings [qPort, qMath] initState (.drop "cat"))
    (Reach.next initState (.drop "cat") Reach.init ⟨rfl, rfl, by decide⟩)
    rfl rfl (by decide)

/-- C5: dismissing incorrect feedback is a pure attempt reset: the index,
the score, the completion flag and the reported score are all unchanged
(same question, no penalty, unlimited retries), and feedback and hint are
cleared. -/
theorem dismiss_incorrect_is_frame (settings : Settings) (qs : List Question)
    (s : GameState) (f : Feedback) (hfb : s.feedback = some f)
    (hc : f.correct = false) :
    (step settings qs s .closeFeedback).currentIndex = s.currentIndex ∧
    (step settings qs s .closeFeedback).score = s.score ∧
    (step settings qs s .closeFeedback).done = s.done ∧
    (step settings qs s .closeFeedback).reported = s.reported ∧
    (step settings qs s .closeFeedback).feedback = none ∧
    (step settings qs s .closeFeedback).showHint = false := by
  have hstep : step settings qs s .closeFeedback = resetAttemptState s := by
    simp [step, handleCloseFeedback, hfb, hc]
  rw [hstep]
  exact ⟨rfl, rfl, rfl, rfl, rfl, rfl⟩

/-- C5 witness: the theorem applied to the state reached by the wrong
drop `"dog"` on the first question. -/
theorem dismiss_incorrect_is_frame_witness :
    (step defaultSettings [qPort, qMath]
      (step defaultSettings [qPort, qMath] initState (.drop "dog"))
      .closeFeedback).currentIndex
      = (step defaultSettings [qPort, qMath] initState (.drop "dog")).currentIndex ∧
    (step defaultSettings [qPort, qMath]
      (step defaultSettings [qPort, qMath] initState (.drop "dog"))
      .closeFeedback).score
      = (step defaultSettings [qPort, qMath] initState (.drop "dog")).score ∧
    (step defaultSettings [qPort, qMath]
      (step defaultSettings [qPort, qMath] initState (.drop "dog"))
      .closeFeedback).done
      = (step defaultSettings [qPort, qMath] initState (.drop "dog")).done ∧
    (step defaultSettings [qPort, qMath]
      (step defaultSettings [qPort, qMath] initState (.drop "dog"))
      .closeFeedback).reported
      = (step defaultSettings [qPort, qMath] initState (.drop "dog")).reported ∧
    (step defaultSettings [qPort, qMath]
      (step defaultSettings [qPort, qMath] initState (.drop "dog"))
      .closeFeedback).feedback = none ∧
    (step defaultSettings [qPort, qMath]
      (step defaultSettings [qPort, qMath] initState (.drop "dog"))
      .closeFeedback).showHint = false :=
  dismiss_incorrect_is_frame defaultSettings [qPort, qMath]
    (step defaultSettings [qPort, qMath] initState (.drop "dog"))
    ⟨false, true⟩ rfl rfl

/-- C7: in a session whose filtered question set is empty, every reachable
state renders the distinct fallback view ("Carregando questões...",
App.tsx 387–389) — the early return taken whenever `questions[currentIndex]`
is `undefined` — so the game screen never dereferences a question: every
question access goes through the optional `currentQuestion`, which is
`none`, and the session never progresses or crashes (index and score stay
at 0, the session never completes). -/
theorem empty_session_fallback (settings : Settings) (s : GameState)
    (h : Reach settings ([] : List Question) s) :
    currentQuestion [] s = none ∧ render [] s = GameView.fallback ∧
    s.currentIndex = 0 ∧ s.score = 0 ∧ s.done = false := by
  have ih := reach_inv h
  obtain ⟨hidx, hsc, -, hdone⟩ := ih.empty_frozen rfl
  have hcq : currentQuestion ([] : List Question) s = none := by
    simp [currentQuestion]
  exact ⟨hcq, by simp [render, hcq], hidx, hsc, hdone⟩

/-- C7 witness: the theorem at the initial state of an empty session. -/
theorem empty_session_fallback_witness :
    currentQuestion [] initState = none ∧
    render [] initState = GameView.fallback ∧
    initState.currentIndex = 0 ∧ initState.score = 0 ∧
    initState.done = false :=
  empty_session_fallback defaultSettings initState Reach.init

/-- With reduced motion enabled, no reachable state of a session has the
generating flag set or an illustration request issued: the question-change
effect returns right after installing the default static illustration
(App.tsx 286–289), before `generateIllustration` is defined or called, and
with no request in flight nothing ever sets the flag. -/
theorem reduceMotion_never_generating {settings : Settings}
    {qs : List Question} {s : GameState} (hrm : settings.reduceMotion = true)
    (h : Reach settings qs s) : s.isGenerating = false ∧ s.illRequests = 0 := by
  induction h with
  | init => exact ⟨rfl, rfl⟩
  | next s e hr hv ih =>
    cases e with
    | drop v =>
      show (handleDrop qs v s).isGenerating = false
        ∧ (handleDrop qs v s).illRequests = 0
      unfold handleDrop
      cases currentQuestion qs s with
      | none => exact ih
      | some q =>
        by_cases hv : v = q.correctAnswer <;> simp only [hv, if_true, if_false,
          reduceCtorEq, ite_true, ite_false] <;> exact ih
    | closeFeedback =>
      show (handleCloseFeedback qs s).isGenerating = false
        ∧ (handleCloseFeedback qs s).illRequests = 0
      unfold handleCloseFeedback resetAttemptState
      cases s.feedback with
      | none => exact ih
      | some f =>
        by_cases hc : f.correct <;>
          by_cases hlt : s.currentIndex < qs.length - 1 <;>
            simp only [hc, hlt, if_true, if_false, ite_true, ite_false] <;>
              exact ih
    | hintTimerFire id => exact ih
    | dragEnter => exact ih
    | dragLeave => exact ih
    | startQuestion =>
      show (startQuestionEffect settings qs s).isGenerating = false
        ∧ (startQuestionEffect settings qs s).illRequests = 0
      unfold startQuestionEffect
      cases currentQuestion qs s with
      | none => exact ih
      | some q => simp only [hrm, if_true, ite_true]; exact ih
    | illSuccess bytes => exact ⟨rfl, ih.2⟩
    | illFailure q => exact ⟨rfl, ih.2⟩

/-- C8: whenever the reduced-motion setting is enabled, the generating
flag is false in every reachable session state and no illustration
request has ever been issued (`illRequests = 0` counts the calls to
`generateIllustration`); moreover running the question-start effect shows
the current question's default static illustration immediately while
still issuing no request and leaving the generating flag false. -/
theorem reduceMotion_no_illustration_request (settings : Settings)
    (qs : List Question) (s : GameState) (hrm : settings.reduceMotion = true)
    (h : Reach settings qs s) (q : Question)
    (hq : currentQuestion qs s = some q) :
    s.isGenerating = false ∧ s.illRequests = 0 ∧
    (step settings qs s .startQuestion).illustrationUrl
      = some q.illustration.src ∧
    (step settings qs s .startQuestion).isGenerating = false ∧
    (step settings qs s .startQuestion).illRequests = 0 := by
  obtain ⟨hgen, hreq⟩ := reduceMotion_never_generating hrm h
  have hstep : step settings qs s .startQuestion
      = { s with illustrationUrl := some q.illustration.src } := by
    simp [step, startQuestionEffect, hq, hrm]
  rw [hstep]
  exact ⟨hgen, hreq, rfl, hgen, hreq⟩

/-- C8 witness: the theorem at the initial state of the two-question
session with reduced motion enabled. -/
theorem reduceMotion_no_illustration_request_witness :
    initState.isGenerating = false ∧ initState.illRequests = 0 ∧
    (step reducedMotionSettings [qPort, qMath] initState
      .startQuestion).illustrationUrl = some qPort.illustration.src ∧
    (step reducedMotionSettings [qPort, qMath] initState
      .startQuestion).isGenerating = false ∧
    (step reducedMotionSettings [qPort, qMath] initState
      .startQuestion).illRequests = 0 :=
  reduceMotion_no_illustration_request reducedMotionSettings [qPort, qMath]
    initState rfl Reach.init qPort rfl

/-- C9: when the illustration request for question `q` fails (either
step — the `catch` covers both awaited calls), the generating flag
returns to false, the stored and displayed illustration equal the
question's default static illustration, and nothing else changes: score,
index, feedback, completion, hint and timers are untouched, so gameplay
is never blocked (the failure is only logged via `console.error`). -/
theorem illustration_failure_falls_back (settings : Settings)
    (qs : List Question) (s : GameState) (q : Question) :
    (step settings qs s (.illFailure q)).illustrationUrl
      = some q.illustration.src ∧
    (step settings qs s (.illFailure q)).isGenerating = false ∧
    displayedIllustration (step settings qs s (.illFailure q)) q
      = q.illustration.src ∧
    (step settings qs s (.illFailure q)).score = s.score ∧
    (step settings qs s (.illFailure q)).currentIndex = s.currentIndex ∧
    (step settings qs s (.illFailure q)).feedback = s.feedback ∧
    (step settings qs s (.illFailure q)).done = s.done ∧
    (step settings qs s (.illFailure q)).showHint = s.showHint ∧
    (step settings qs s (.illFailure q)).pendingTimers = s.pendingTimers :=
  ⟨rfl, rfl, rfl, rfl, rfl, rfl, rfl, rfl, rfl⟩

/-- C10: acknowledging feedback when none is set (the `feedback?.correct`
guard is falsy for `null`) leaves the index, the score, the completion
flag and the reported score unchanged — the session neither advances nor
completes — and only resets the transient attempt state: drag-over off,
feedback none, hint hidden, no pending hint timer. -/
theorem acknowledge_without_feedback (settings : Settings)
    (qs : List Question) (s : GameState) (h : Reach settings qs s)
    (hfb : s.feedback = none) :
    (step settings qs s .closeFeedback).currentIndex = s.currentIndex ∧
    (step settings qs s .closeFeedback).score = s.score ∧
    (step settings qs s .closeFeedback).done = s.done ∧
    (step settings qs s .closeFeedback).reported = s.reported ∧
    (step settings qs s .closeFeedback).feedback = none ∧
    (step settings qs s .closeFeedback).showHint = false ∧
    (step settings qs s .closeFeedback).isDragOver = false ∧
    (step settings qs s .closeFeedback).pendingTimers = [] := by
  have ih := reach_inv h
  have hpend : s.pendingTimers = [] := by
    rcases ih.timers with h0 | ⟨id, _, _, hfb2⟩
    · exact h0
    · rw [hfb] at hfb2; exact Option.noConfusion hfb2
  have hstep : step settings qs s .closeFeedback = resetAttemptState s := by
    simp [step, handleCloseFeedback, hfb]
  rw [hstep]
  exact ⟨rfl, rfl, rfl, rfl, rfl, rfl, rfl,
    resetAttemptState_pendingTimers_nil hpend⟩

/-- C10 witness: the theorem at the initial state (no feedback set). -/
theorem acknowledge_without_feedback_witness :
    (step defaultSettings [qPort, qMath] initState
      .closeFeedback).currentIndex = initState.currentIndex ∧
    (step defaultSettings [qPort, qMath] initState
      .closeFeedback).score = initState.score ∧
    (step defaultSettings [qPort, qMath] initState
      .closeFeedback).done = initState.done ∧
    (step defaultSettings [qPort, qMath] initState
      .closeFeedback).reported = initState.reported ∧
    (step defaultSettings [qPort, qMath] initState
      .closeFeedback).feedback = none ∧
    (step defaultSettings [qPort, qMath] initState
      .closeFeedback).showHint = false ∧
    (step defaultSettings [qPort, qMath] initState
      .closeFeedback).isDragOver = false ∧
    (step defaultSettings [qPort, qMath] initState
      .closeFeedback).pendingTimers = [] :=
  acknowledge_without_feedback defaultSettings [qPort, qMath] initState
    Reach.init rfl
